import Mathlib

/-!
Verification of `src/native/markdown_ld_nif/src/lib.rs` (crate `markdown_ld_nif`).

The NIF module exports four functions: `parse_markdown`, `extract_links`,
`extract_headings` and `validate_links`.  `parse_markdown` validates the input
bytes as UTF-8 (`std::str::from_utf8`), counts whitespace-delimited words
(`split_whitespace().count()`), computes a reading time
(`(word_count as f64 / 200.0).ceil() as usize`), and returns `{:ok, json}` for
a fixed ten-field JSON object, or `{:error, :invalid_markdown}` when the bytes
are not valid UTF-8.  The other three functions ignore their input and return
`{:ok, "[]"}`.

Shallow embedding conventions:
* input byte sequences are `List Nat` (each element a byte value);
* decoded text is a `List Nat` of Unicode scalar values;
* `f64` ceiling division by 200 is modelled as exact natural ceiling division
  `(w + 199) / 200`; the two agree for every word count below 2^46 (a word
  count is bounded by the input length, far below that), because the rounding
  error of `w / 200.0` is under 1/256 there and hence cannot cross an integer;
* the JSON value built by `serde_json::json!` is modelled by the inductive
  `Json`, with object fields in the order written in the source.
-/

/-- The atoms declared by the `atoms!` block in `lib.rs`:
`ok`, `error`, `invalid_markdown`, `processing_error`. -/
inductive Atom where
  | ok
  | error
  | invalid_markdown
  | processing_error
deriving DecidableEq

/-- A JSON value, as produced by `serde_json::json!`.  Object fields are kept
in the order they are written in the source. -/
inductive Json where
  | null
  | bool (b : Bool)
  | num (n : Nat)
  | str (s : String)
  | arr (elems : List Json)
  | obj (fields : List (String × Json))

/-- Field lookup in a JSON object (`None` on non-objects and missing keys). -/
def Json.getField (j : Json) (key : String) : Option Json :=
  match j with
  | .obj fields => fields.lookup key
  | _ => none

/-- The keys of a JSON object, in order (empty for non-objects). -/
def Json.keys (j : Json) : List String :=
  match j with
  | .obj fields => fields.map Prod.fst
  | _ => []

/-- Rust's `char::is_whitespace`: the Unicode `White_Space` property, on
scalar values. -/
def isRustWhitespace (c : Nat) : Bool :=
  c == 0x09 || c == 0x0A || c == 0x0B || c == 0x0C || c == 0x0D ||
  c == 0x20 || c == 0x85 || c == 0xA0 || c == 0x1680 ||
  (0x2000 ≤ c && c ≤ 0x200A) ||
  c == 0x2028 || c == 0x2029 || c == 0x202F || c == 0x205F || c == 0x3000

/-- Helper for `splitWs`: `cur` is the (reversed) word currently being read. -/
def splitWsAux (cur : List Nat) : List Nat → List (List Nat)
  | [] => if cur.isEmpty then [] else [cur.reverse]
  | c :: rest =>
      if isRustWhitespace c then
        if cur.isEmpty then splitWsAux [] rest
        else cur.reverse :: splitWsAux [] rest
      else splitWsAux (c :: cur) rest

/-- Rust's `str::split_whitespace`: the maximal runs of non-whitespace
scalar values, in order. -/
def splitWs (cs : List Nat) : List (List Nat) :=
  splitWsAux [] cs

/-- `markdown_str.split_whitespace().count()` from `parse_markdown`. -/
def wordCount (cs : List Nat) : Nat :=
  (splitWs cs).length

/-- `(word_count as f64 / 200.0).ceil() as usize`, as exact ceiling
division (see the header comment for why this is exact here). -/
def readingTime (wc : Nat) : Nat :=
  (wc + 199) / 200

/-- A UTF-8 continuation byte, `0x80 ..= 0xBF`. -/
def isCont (b : Nat) : Bool :=
  0x80 ≤ b && b ≤ 0xBF

/-- UTF-8 decoding exactly as validated by Rust's `std::str::from_utf8`:
rejects overlong encodings, surrogates and values above U+10FFFF.  Returns
the list of Unicode scalar values, or `none` on invalid input. -/
def utf8Decode : List Nat → Option (List Nat)
  | [] => some []
  | b0 :: rest =>
    if b0 < 0x80 then
      match utf8Decode rest with
      | some cs => some (b0 :: cs)
      | none => none
    else if 0xC2 ≤ b0 && b0 ≤ 0xDF then
      match rest with
      | b1 :: rest1 =>
        if isCont b1 then
          match utf8Decode rest1 with
          | some cs => some (((b0 - 0xC0) * 0x40 + (b1 - 0x80)) :: cs)
          | none => none
        else none
      | [] => none
    else if 0xE0 ≤ b0 && b0 ≤ 0xEF then
      match rest with
      | b1 :: b2 :: rest2 =>
        if (if b0 == 0xE0 then 0xA0 ≤ b1 && b1 ≤ 0xBF
            else if b0 == 0xED then 0x80 ≤ b1 && b1 ≤ 0x9F
            else isCont b1) && isCont b2 then
          match utf8Decode rest2 with
          | some cs =>
              some (((b0 - 0xE0) * 0x1000 + (b1 - 0x80) * 0x40 + (b2 - 0x80)) :: cs)
          | none => none
        else none
      | _ => none
    else if 0xF0 ≤ b0 && b0 ≤ 0xF4 then
      match rest with
      | b1 :: b2 :: b3 :: rest3 =>
        if (if b0 == 0xF0 then 0x90 ≤ b1 && b1 ≤ 0xBF
            else if b0 == 0xF4 then 0x80 ≤ b1 && b1 ≤ 0x8F
            else isCont b1) && isCont b2 && isCont b3 then
          match utf8Decode rest3 with
          | some cs =>
              some (((b0 - 0xF0) * 0x40000 + (b1 - 0x80) * 0x1000 +
                     (b2 - 0x80) * 0x40 + (b3 - 0x80)) :: cs)
          | none => none
        else none
      | _ => none
    else none

/-- `std::str::from_utf8(...).is_ok()`. -/
def validUtf8 (bytes : List Nat) : Bool :=
  (utf8Decode bytes).isSome

/-- The `serde_json::json!` object literal from `parse_markdown`, with the
two computed fields inlined; every other field is the hard-coded constant
written in the source. -/
def documentJson (wc : Nat) : Json :=
  .obj [
    ("links", .arr []),
    ("headings", .arr []),
    ("code_blocks", .arr []),
    ("tasks", .arr []),
    ("word_count", .num wc),
    ("reading_time_minutes", .num (readingTime wc)),
    ("metadata", .obj []),
    ("table_of_contents", .arr []),
    ("backlinks", .arr []),
    ("frontmatter", .null)
  ]

/-- What a NIF of this module returns to the host:
`{:error, atom}` or `{:ok, json}` (the JSON is serialized to a string at the
boundary; we keep the structured value). -/
inductive NifReturn where
  | errTag (a : Atom)
  | okJson (j : Json)

/-- `parse_markdown` from `lib.rs`: UTF-8 validation, then the fixed JSON
document with the computed word count and reading time. -/
def parse_markdown (bytes : List Nat) : NifReturn :=
  match utf8Decode bytes with
  | none => .errTag .invalid_markdown
  | some cs => .okJson (documentJson (wordCount cs))

/-- `extract_links` from `lib.rs`: ignores its input, returns `{:ok, "[]"}`. -/
def extract_links (_bytes : List Nat) : NifReturn :=
  .okJson (.arr [])

/-- `extract_headings` from `lib.rs`: ignores its input, returns `{:ok, "[]"}`. -/
def extract_headings (_bytes : List Nat) : NifReturn :=
  .okJson (.arr [])

/-- `validate_links` from `lib.rs`: ignores its input, returns `{:ok, "[]"}`. -/
def validate_links (_bytes : List Nat) : NifReturn :=
  .okJson (.arr [])

/-- Bytes of an ASCII string (used only for concrete test inputs, all of
which are ASCII, where the UTF-8 bytes are the scalar values). -/
def asciiBytes (s : String) : List Nat :=
  s.data.map Char.toNat

mutual

/-- `serde_json::Value::to_string` for the values this module builds: compact
separators, no spaces.  The keys produced here are plain ASCII identifiers,
so no string escaping is needed. -/
def jsonToString : Json → String
  | .null => "null"
  | .bool true => "true"
  | .bool false => "false"
  | .num n => toString n
  | .str s => "\"" ++ s ++ "\""
  | .arr xs => "[" ++ jsonArrToString xs ++ "]"
  | .obj fs => "\x7b" ++ jsonObjToString fs ++ "\x7d"

/-- Comma-joined serialization of array elements. -/
def jsonArrToString : List Json → String
  | [] => ""
  | [x] => jsonToString x
  | x :: y :: xs => jsonToString x ++ "," ++ jsonArrToString (y :: xs)

/-- Comma-joined serialization of object fields. -/
def jsonObjToString : List (String × Json) → String
  | [] => ""
  | [(k, v)] => "\"" ++ k ++ "\":" ++ jsonToString v
  | (k, v) :: f :: fs => "\"" ++ k ++ "\":" ++ jsonToString v ++ "," ++ jsonObjToString (f :: fs)

end

/-- The serialized JSON string `parse_markdown` hands to the host on success
(`none` on the error branch). -/
def parseOutputString (bytes : List Nat) : Option String :=
  match parse_markdown bytes with
  | .okJson j => some (jsonToString j)
  | .errTag _ => none

/-- The atom component of a NIF return: the error atom of `{:error, atom}`,
or `ok` for `{:ok, _}`. -/
def NifReturn.tagAtom : NifReturn → Atom
  | .errTag a => a
  | .okJson _ => .ok

/-- Modelled from the spec (the link/block extraction pipeline of §4 is not
implemented in `lib.rs`): split text into lines at newline characters. -/
def spec_splitLinesAux (cur : List Nat) : List Nat → List (List Nat)
  | [] => [cur.reverse]
  | c :: rest =>
      if c == 10 then cur.reverse :: spec_splitLinesAux [] rest
      else spec_splitLinesAux (c :: cur) rest

/-- Modelled from the spec: the lines of a text. -/
def spec_splitLines (cs : List Nat) : List (List Nat) :=
  spec_splitLinesAux [] cs

/-- Modelled from the spec (§4.1): a fenced-code-block delimiter line, one
starting with three backtick characters (scalar value 96). -/
def spec_isFenceLine (l : List Nat) : Bool :=
  match l with
  | 96 :: 96 :: 96 :: _ => true
  | _ => false

/-- Modelled from the spec (§4.1): the text contains a fenced code block with
no closing delimiter before end-of-input, i.e. the number of fence delimiter
lines is odd. -/
def spec_hasUnterminatedFence (cs : List Nat) : Bool :=
  ((spec_splitLines cs).filter spec_isFenceLine).length % 2 == 1

/-- Modelled from the spec (§4.5, §4.7): the prose lines of a text, dropping
fenced code block content and the fence delimiter lines themselves. -/
def spec_proseLinesAux (inCode : Bool) : List (List Nat) → List (List Nat)
  | [] => []
  | l :: ls =>
      if spec_isFenceLine l then spec_proseLinesAux (!inCode) ls
      else if inCode then spec_proseLinesAux inCode ls
      else l :: spec_proseLinesAux inCode ls

/-- Modelled from the spec (§4.7): word count over prose spans only, with
fenced code block content (and the fences) excluded from counting. -/
def spec_proseWordCount (cs : List Nat) : Nat :=
  ((spec_proseLinesAux false (spec_splitLines cs)).map
    (fun l => (splitWs l).length)).sum

/-- Modelled from the spec (§4.4): take characters up to (excluding) the
first occurrence of `stop`, returning them with the remainder, or `none`
when `stop` never occurs. -/
def spec_takeUntil (stop : Nat) : List Nat → Option (List Nat × List Nat)
  | [] => none
  | c :: rest =>
      if c == stop then some ([], rest)
      else
        match spec_takeUntil stop rest with
        | some (tk, rm) => some (c :: tk, rm)
        | none => none

/-- Modelled from the spec (§4.4): the targets of inline links
`[display](target)` occurring in the text, in order. -/
def spec_scanLinkTargets : List Nat → List (List Nat)
  | [] => []
  | c :: rest =>
      if c == 91 then
        match spec_takeUntil 93 rest with
        | some (_disp, rm) =>
            match rm with
            | 40 :: rm2 =>
                match spec_takeUntil 41 rm2 with
                | some (tgt, _rm3) => tgt :: spec_scanLinkTargets rest
                | none => spec_scanLinkTargets rest
            | _ => spec_scanLinkTargets rest
        | none => spec_scanLinkTargets rest
      else spec_scanLinkTargets rest

/-- Modelled from the spec (§4.4): a link target is `internal` when it has no
URI scheme (no colon, value 58) and is not an in-page anchor (does not start
with `#`, value 35). -/
def spec_isInternalTarget (t : List Nat) : Bool :=
  !(t.contains 58) &&
    (match t with
     | 35 :: _ => false
     | _ => true)

/-- Modelled from the spec (§4.4): the internal link targets of a text. -/
def spec_internalTargets (cs : List Nat) : List (List Nat) :=
  (spec_scanLinkTargets cs).filter spec_isInternalTarget

/-- All ten fields of the canonical Document schema are present. -/
def allFieldsPresent (j : Json) : Bool :=
  (j.getField "links").isSome && (j.getField "headings").isSome &&
  (j.getField "code_blocks").isSome && (j.getField "tasks").isSome &&
  (j.getField "word_count").isSome && (j.getField "reading_time_minutes").isSome &&
  (j.getField "metadata").isSome && (j.getField "table_of_contents").isSome &&
  (j.getField "backlinks").isSome && (j.getField "frontmatter").isSome

/-- The example input of the spec (§8) used by claim C4. -/
def c4Input : String :=
  "# Title\n\nSee [other](other.md) and [ext](https://x.com).\n- [x] done\n- [ ] todo\n"

/-- The input of claim C2's counterexample: a document that is nothing but a
fenced code block containing two words. -/
def c2Input : String := "```\nfoo bar\n```\n"

/-- The input of claim C7's counterexample: a fenced code block with no
closing delimiter before end-of-input. -/
def c7Input : String := "```\ncode here"

/-- The input of claim C8's counterexample: one internal inline link. -/
def c8Input : String := "See [other](other.md).\n"

/-- Claim C2 as stated: `word_count` equals the number of whitespace-delimited
tokens of the prose spans only, with code block content excluded
(`spec_proseWordCount` models the spec's §4.7 counting rule on the decoded
text). -/
def spec_claimC2 : Prop :=
  ∀ bytes cs, utf8Decode bytes = some cs →
    ∃ j, parse_markdown bytes = .okJson j ∧
      j.getField "word_count" = some (.num (spec_proseWordCount cs))

/-- Claim C4 as stated: on the spec's example input, the parse reports one
heading, two links, two tasks, and a reading time of one minute. -/
def spec_claimC4 : Prop :=
  ∃ j hs ls ts, parse_markdown (asciiBytes c4Input) = .okJson j ∧
    j.getField "headings" = some (.arr hs) ∧ hs.length = 1 ∧
    j.getField "links" = some (.arr ls) ∧ ls.length = 2 ∧
    j.getField "tasks" = some (.arr ts) ∧ ts.length = 2 ∧
    j.getField "reading_time_minutes" = some (.num 1)

/-- Claim C7 as stated: an input whose fenced code block is unterminated at
end-of-input still yields exactly one code block in `code_blocks`. -/
def spec_claimC7 : Prop :=
  ∀ bytes cs, utf8Decode bytes = some cs →
    spec_hasUnterminatedFence cs = true →
      ∃ j arr, parse_markdown bytes = .okJson j ∧
        j.getField "code_blocks" = some (.arr arr) ∧ arr.length = 1

/-- Claim C8 as stated, as a conjunction: (a) an internal link whose target an
index resolves yields a backlink edge (the claim says exactly one; we state
only that the `backlinks` array is nonempty, so refuting this refutes the
claim a fortiori), and (b) with no index supplied the `backlinks` field is
empty. -/
def spec_claimC8 : Prop :=
  (∀ bytes cs, utf8Decode bytes = some cs →
    ∀ resolve : List Nat → Option Nat, ∀ t ∈ spec_internalTargets cs,
      (resolve t).isSome = true →
        ∃ j arr, parse_markdown bytes = .okJson j ∧
          j.getField "backlinks" = some (.arr arr) ∧ arr ≠ []) ∧
  (∀ bytes j, parse_markdown bytes = .okJson j →
    j.getField "backlinks" = some (.arr []))

/-- Inversion for a successful parse: the input decoded, and the result is
the fixed document built from its word count. -/
lemma parse_ok_inv {bytes : List Nat} {j : Json}
    (h : parse_markdown bytes = .okJson j) :
    ∃ cs, utf8Decode bytes = some cs ∧ j = documentJson (wordCount cs) := by
  unfold parse_markdown at h
  cases hd : utf8Decode bytes with
  | none => rw [hd] at h; injection h
  | some cs =>
      rw [hd] at h
      exact ⟨cs, rfl, (NifReturn.okJson.inj h).symm⟩

/-- A successful parse happens exactly on valid UTF-8. -/
lemma parse_ok_iff_valid (bytes : List Nat) :
    (∃ j, parse_markdown bytes = .okJson j) ↔ validUtf8 bytes = true := by
  unfold parse_markdown validUtf8
  cases hd : utf8Decode bytes with
  | none => simp
  | some cs => simp

/-- The error branch happens exactly on invalid UTF-8, always with the
`invalid_markdown` atom. -/
lemma parse_err_iff_invalid (bytes : List Nat) :
    parse_markdown bytes = .errTag .invalid_markdown ↔ ¬ validUtf8 bytes = true := by
  unfold parse_markdown validUtf8
  cases hd : utf8Decode bytes with
  | none => simp
  | some cs => simp

lemma documentJson_word_count (w : Nat) :
    (documentJson w).getField "word_count" = some (.num w) := rfl

lemma documentJson_reading_time (w : Nat) :
    (documentJson w).getField "reading_time_minutes" = some (.num (readingTime w)) := rfl

lemma documentJson_headings (w : Nat) :
    (documentJson w).getField "headings" = some (.arr []) := rfl

lemma documentJson_links (w : Nat) :
    (documentJson w).getField "links" = some (.arr []) := rfl

lemma documentJson_code_blocks (w : Nat) :
    (documentJson w).getField "code_blocks" = some (.arr []) := rfl

lemma documentJson_tasks (w : Nat) :
    (documentJson w).getField "tasks" = some (.arr []) := rfl

lemma documentJson_backlinks (w : Nat) :
    (documentJson w).getField "backlinks" = some (.arr []) := rfl

lemma documentJson_keys (w : Nat) :
    (documentJson w).keys =
      ["links", "headings", "code_blocks", "tasks", "word_count",
       "reading_time_minutes", "metadata", "table_of_contents",
       "backlinks", "frontmatter"] := rfl

lemma documentJson_allFields (w : Nat) :
    allFieldsPresent (documentJson w) = true := rfl

/-- Every token of `splitWsAux cur cs` is nonempty and free of whitespace
characters, provided the pending word `cur` is free of whitespace. -/
lemma splitWsAux_tokens :
    ∀ (cs cur : List Nat), (∀ c ∈ cur, isRustWhitespace c = false) →
      ∀ t ∈ splitWsAux cur cs, t ≠ [] ∧ ∀ c ∈ t, isRustWhitespace c = false := by
  intro cs
  induction cs with
  | nil =>
      intro cur hcur t ht
      unfold splitWsAux at ht
      cases cur with
      | nil => simp at ht
      | cons a as =>
          simp at ht
          subst ht
          refine ⟨by simp, ?_⟩
          intro c hcm
          apply hcur
          simp only [List.mem_append, List.mem_reverse, List.mem_singleton] at hcm
          simp only [List.mem_cons]
          tauto
  | cons c0 rest ih =>
      intro cur hcur t ht
      unfold splitWsAux at ht
      by_cases hw : isRustWhitespace c0 = true
      · rw [if_pos hw] at ht
        cases cur with
        | nil => exact ih [] (by simp) t (by simpa using ht)
        | cons a as =>
            simp only [List.isEmpty_cons, if_neg] at ht
            rcases List.mem_cons.mp (by simpa using ht) with rfl | hmem
            · refine ⟨by simp, ?_⟩
              intro c hcm
              apply hcur
              simp only [List.mem_append, List.mem_reverse, List.mem_singleton] at hcm
              simp only [List.mem_cons]
              tauto
            · exact ih [] (by simp) t hmem
      · rw [if_neg hw] at ht
        refine ih (c0 :: cur) ?_ t ht
        intro c hcm
        rcases List.mem_cons.mp hcm with rfl | hcm
        · exact Bool.not_eq_true _ ▸ (Bool.of_not_eq_true hw)
        · exact hcur c hcm

/-- `wordCount` counts exactly the whitespace-delimited tokens of the text:
it is the length of `splitWs`, whose members are the nonempty maximal
whitespace-free runs. -/
lemma wordCount_spec (cs : List Nat) :
    wordCount cs = (splitWs cs).length ∧
      ∀ t ∈ splitWs cs, t ≠ [] ∧ ∀ c ∈ t, isRustWhitespace c = false :=
  ⟨rfl, splitWsAux_tokens cs [] (by simp)⟩

lemma parse_c2_eval :
    parse_markdown (asciiBytes c2Input) = .okJson (documentJson 4) := rfl

lemma parse_c4_eval :
    parse_markdown (asciiBytes c4Input) = .okJson (documentJson 13) := rfl

lemma parse_c7_eval :
    parse_markdown (asciiBytes c7Input) = .okJson (documentJson 3) := rfl

lemma parse_c8_eval :
    parse_markdown (asciiBytes c8Input) = .okJson (documentJson 2) := rfl

lemma targets_c8_eval :
    spec_internalTargets (asciiBytes c8Input) =
      [[111, 116, 104, 101, 114, 46, 109, 100]] := rfl

/-- Claim C1: for every input accepted by `parse_markdown`, the document's
`word_count` is a natural number `w ≥ 0` and `reading_time_minutes` equals
`max 1 ⌈w / 200⌉` when `w > 0` (stated both as the `max` of the exact ceiling
division and by the defining bounds of the ceiling), and equals `0` when
`w = 0`. -/
theorem parse_markdown_reading_time :
    ∀ bytes j, parse_markdown bytes = .okJson j →
      ∃ w r, j.getField "word_count" = some (.num w) ∧
        j.getField "reading_time_minutes" = some (.num r) ∧
        0 ≤ w ∧
        (w = 0 → r = 0) ∧
        (0 < w → r = max 1 ((w + 199) / 200) ∧
          1 ≤ r ∧ w ≤ 200 * r ∧ 200 * (r - 1) < w) := by
  intro bytes j h
  rcases parse_ok_inv h with ⟨cs, _, rfl⟩
  refine ⟨wordCount cs, readingTime (wordCount cs),
    documentJson_word_count _, documentJson_reading_time _, Nat.zero_le _, ?_, ?_⟩
  · intro h0
    simp [readingTime, h0]
  · intro hpos
    unfold readingTime
    refine ⟨?_, ?_, ?_, ?_⟩ <;> omega

/-- Witness for C1 at the concrete input `"hello world"` (word count 2). -/
theorem parse_markdown_reading_time_witness :
    ∃ w r, (documentJson 2).getField "word_count" = some (.num w) ∧
      (documentJson 2).getField "reading_time_minutes" = some (.num r) ∧
      0 ≤ w ∧
      (w = 0 → r = 0) ∧
      (0 < w → r = max 1 ((w + 199) / 200) ∧
        1 ≤ r ∧ w ≤ 200 * r ∧ 200 * (r - 1) < w) :=
  parse_markdown_reading_time (asciiBytes "hello world") (documentJson 2) rfl

/-- Claim C2 is false on the code: for the input consisting of one fenced
code block with two words, the spec's prose word count is `0` but
`parse_markdown` reports `word_count = 4`, counting the code block content
and the fence delimiters. -/
theorem word_count_counts_code_content : ¬ spec_claimC2 := by
  intro h
  rcases h (asciiBytes c2Input) (asciiBytes c2Input) rfl with ⟨j, hj, hwc⟩
  rw [parse_c2_eval] at hj
  have hje := NifReturn.okJson.inj hj
  subst hje
  rw [documentJson_word_count] at hwc
  have hz : spec_proseWordCount (asciiBytes c2Input) = 0 := rfl
  rw [hz] at hwc
  simp at hwc

/-- Claim C2 (amended): `word_count` equals the number of whitespace-delimited
tokens of the entire input text — code block content, fence delimiters and
frontmatter included; the tokens are exactly the nonempty maximal
whitespace-free runs of the decoded text. -/
theorem word_count_whole_text :
    ∀ bytes cs, utf8Decode bytes = some cs →
      ∃ j, parse_markdown bytes = .okJson j ∧
        j.getField "word_count" = some (.num ((splitWs cs).length)) ∧
        ∀ t ∈ splitWs cs, t ≠ [] ∧ ∀ c ∈ t, isRustWhitespace c = false := by
  intro bytes cs hd
  refine ⟨documentJson (wordCount cs), ?_, documentJson_word_count _,
    (wordCount_spec cs).2⟩
  unfold parse_markdown
  rw [hd]

/-- Witness for the amended C2 at the code-block input of the counterexample:
the four counted tokens include the code content and the fences. -/
theorem word_count_whole_text_witness :
    ∃ j, parse_markdown (asciiBytes c2Input) = .okJson j ∧
      j.getField "word_count" =
        some (.num ((splitWs (asciiBytes c2Input)).length)) ∧
      ∀ t ∈ splitWs (asciiBytes c2Input),
        t ≠ [] ∧ ∀ c ∈ t, isRustWhitespace c = false :=
  word_count_whole_text (asciiBytes c2Input) (asciiBytes c2Input) rfl

/-- Claim C3: `parse_markdown` returns the `invalid_markdown` error exactly
when the input is not valid UTF-8, and on every valid UTF-8 input it succeeds
with a document carrying all ten schema fields. -/
theorem parse_markdown_utf8_boundary :
    ∀ bytes,
      (parse_markdown bytes = .errTag .invalid_markdown ↔
        validUtf8 bytes = false) ∧
      ((∃ j, parse_markdown bytes = .okJson j ∧ allFieldsPresent j = true) ↔
        validUtf8 bytes = true) := by
  intro bytes
  cases hd : utf8Decode bytes with
  | none =>
      refine ⟨?_, ?_⟩
      · simp [parse_markdown, hd, validUtf8]
      · simp [parse_markdown, hd, validUtf8]
  | some cs =>
      refine ⟨?_, ?_⟩
      · simp [parse_markdown, hd, validUtf8]
      · constructor
        · intro _
          simp [validUtf8, hd]
        · intro _
          exact ⟨documentJson (wordCount cs), by simp [parse_markdown, hd],
            documentJson_allFields _⟩

/-- Witness for C3 at the invalid byte `0xFF` and (by the second conjunct
evaluated at `"hi"`) a valid input. -/
theorem parse_markdown_utf8_boundary_witness :
    parse_markdown [0xFF] = .errTag .invalid_markdown ∧
    (∃ j, parse_markdown (asciiBytes "hi") = .okJson j ∧
      allFieldsPresent j = true) :=
  ⟨(parse_markdown_utf8_boundary [0xFF]).1.mpr (by decide),
   (parse_markdown_utf8_boundary (asciiBytes "hi")).2.mpr (by decide)⟩

/-- Claim C4 is false on the code: on the spec's example input the parse
reports zero headings (and zero links and tasks), not one heading, two links
and two tasks. -/
theorem example_input_claim_false : ¬ spec_claimC4 := by
  intro h
  rcases h with ⟨j, hs, ls, ts, hj, hh, hh1, _, _, _, _, _⟩
  rw [parse_c4_eval] at hj
  have hje := NifReturn.okJson.inj hj
  subst hje
  rw [documentJson_headings] at hh
  simp only [Option.some.injEq, Json.arr.injEq] at hh
  subst hh
  simp at hh1

/-- Claim C4 (amended): the spec's example input parses successfully with
empty `headings`, `links` and `tasks`, `word_count = 13` (all
whitespace-delimited tokens, markup included), and
`reading_time_minutes = 1`. -/
theorem example_input_eval :
    parse_markdown (asciiBytes c4Input) = .okJson (documentJson 13) ∧
    (documentJson 13).getField "headings" = some (.arr []) ∧
    (documentJson 13).getField "links" = some (.arr []) ∧
    (documentJson 13).getField "tasks" = some (.arr []) ∧
    (documentJson 13).getField "word_count" = some (.num 13) ∧
    (documentJson 13).getField "reading_time_minutes" = some (.num 1) :=
  ⟨parse_c4_eval, rfl, rfl, rfl, rfl, rfl⟩

/-- Claim C5: every successful `parse_markdown` result is an object with
exactly the ten canonical fields, in the order written in the source, with
no field missing and none added. -/
theorem parse_markdown_field_set :
    ∀ bytes j, parse_markdown bytes = .okJson j →
      j.keys = ["links", "headings", "code_blocks", "tasks", "word_count",
        "reading_time_minutes", "metadata", "table_of_contents", "backlinks",
        "frontmatter"] := by
  intro bytes j h
  rcases parse_ok_inv h with ⟨cs, _, rfl⟩
  exact documentJson_keys _

/-- Witness for C5 at the input `"hi"` (word count 1). -/
theorem parse_markdown_field_set_witness :
    (documentJson 1).keys =
      ["links", "headings", "code_blocks", "tasks", "word_count",
       "reading_time_minutes", "metadata", "table_of_contents", "backlinks",
       "frontmatter"] :=
  parse_markdown_field_set (asciiBytes "hi") (documentJson 1) rfl

/-- Claim C6: `parse_markdown` is deterministic — on equal byte input both
the structured result and the serialized JSON string handed to the host are
equal. -/
theorem parse_markdown_deterministic :
    ∀ b1 b2, b1 = b2 →
      parse_markdown b1 = parse_markdown b2 ∧
      parseOutputString b1 = parseOutputString b2 := by
  intro b1 b2 h
  subst h
  exact ⟨rfl, rfl⟩

/-- Witness for C6 at the concrete byte input `"hi"`. -/
theorem parse_markdown_deterministic_witness :
    parse_markdown [104, 105] = parse_markdown [104, 105] ∧
    parseOutputString [104, 105] = parseOutputString [104, 105] :=
  parse_markdown_deterministic [104, 105] [104, 105] rfl

/-- Claim C7 is false on the code: the input `"```\ncode here"` ends in an
unterminated fenced code block, yet `code_blocks` is the empty array, not a
single block spanning to end-of-input. -/
theorem unterminated_fence_no_code_block : ¬ spec_claimC7 := by
  intro h
  rcases h (asciiBytes c7Input) (asciiBytes c7Input) rfl rfl with
    ⟨j, arr, hj, hcb, hlen⟩
  rw [parse_c7_eval] at hj
  have hje := NifReturn.okJson.inj hj
  subst hje
  rw [documentJson_code_blocks] at hcb
  simp only [Option.some.injEq, Json.arr.injEq] at hcb
  subst hcb
  simp at hlen

/-- Claim C7 (amended): `parse_markdown` reports zero code blocks for every
input; an unterminated fenced region is not reported at all (the
`code_blocks` field is always the empty array). -/
theorem code_blocks_always_empty :
    ∀ bytes j, parse_markdown bytes = .okJson j →
      j.getField "code_blocks" = some (.arr []) := by
  intro bytes j h
  rcases parse_ok_inv h with ⟨cs, _, rfl⟩
  exact documentJson_code_blocks _

/-- Witness for the amended C7 at the unterminated-fence input. -/
theorem code_blocks_always_empty_witness :
    (documentJson 3).getField "code_blocks" = some (.arr []) :=
  code_blocks_always_empty (asciiBytes c7Input) (documentJson 3) rfl

/-- Claim C8 is false on the code: the input `"See [other](other.md).\n"`
contains the internal link target `other.md` and the concrete index
`fun _ => some 0` resolves it, yet `backlinks` is the empty array — no
backlink edge is ever produced. -/
theorem resolved_link_no_backlink : ¬ spec_claimC8 := by
  intro h
  rcases h with ⟨h1, _⟩
  rcases h1 (asciiBytes c8Input) (asciiBytes c8Input) rfl (fun _ => some 0)
      [111, 116, 104, 101, 114, 46, 109, 100]
      (by rw [targets_c8_eval]; exact List.mem_singleton_self _) rfl with
    ⟨j, arr, hj, hb, hne⟩
  rw [parse_c8_eval] at hj
  have hje := NifReturn.okJson.inj hj
  subst hje
  rw [documentJson_backlinks] at hb
  simp only [Option.some.injEq, Json.arr.injEq] at hb
  exact hne hb.symm

/-- Claim C8 (amended): `parse_markdown` accepts no index capability and the
`backlinks` field of every successful result is the empty array, regardless
of the input's link content. -/
theorem backlinks_always_empty :
    ∀ bytes j, parse_markdown bytes = .okJson j →
      j.getField "backlinks" = some (.arr []) := by
  intro bytes j h
  rcases parse_ok_inv h with ⟨cs, _, rfl⟩
  exact documentJson_backlinks _

/-- Witness for the amended C8 at the internal-link input. -/
theorem backlinks_always_empty_witness :
    (documentJson 2).getField "backlinks" = some (.arr []) :=
  backlinks_always_empty (asciiBytes c8Input) (documentJson 2) rfl

/-- Claim C9: `extract_links`, `extract_headings` and `validate_links` all
succeed with the empty JSON array (serialized `"[]"`) on every input, and
their output does not depend on the input. -/
theorem stub_functions_constant :
    ∀ b1 b2 : List Nat,
      extract_links b1 = .okJson (.arr []) ∧
      extract_headings b1 = .okJson (.arr []) ∧
      validate_links b1 = .okJson (.arr []) ∧
      jsonToString (.arr []) = "[]" ∧
      extract_links b1 = extract_links b2 ∧
      extract_headings b1 = extract_headings b2 ∧
      validate_links b1 = validate_links b2 :=
  fun _ _ => ⟨rfl, rfl, rfl, rfl, rfl, rfl, rfl⟩

/-- Claim C10: `parse_markdown` is total over arbitrary byte input — it
returns either the `invalid_markdown` error or a document — and every
exported function's result atom is `invalid_markdown` or `ok`; the
`processing_error` atom is never returned. -/
theorem processing_error_unreachable :
    ∀ bytes : List Nat,
      (parse_markdown bytes = .errTag .invalid_markdown ∨
        ∃ j, parse_markdown bytes = .okJson j) ∧
      ((parse_markdown bytes).tagAtom = .invalid_markdown ∨
        (parse_markdown bytes).tagAtom = .ok) ∧
      (extract_links bytes).tagAtom = .ok ∧
      (extract_headings bytes).tagAtom = .ok ∧
      (validate_links bytes).tagAtom = .ok := by
  intro bytes
  refine ⟨?_, ?_, rfl, rfl, rfl⟩
  · cases hd : utf8Decode bytes with
    | none => exact Or.inl (by simp [parse_markdown, hd])
    | some cs =>
        exact Or.inr ⟨documentJson (wordCount cs), by simp [parse_markdown, hd]⟩
  · cases hd : utf8Decode bytes with
    | none => exact Or.inl (by simp [parse_markdown, hd, NifReturn.tagAtom])
    | some cs => exact Or.inr (by simp [parse_markdown, hd, NifReturn.tagAtom])
